import Mathlib

/-!
Verification development for the numflow feature engine.

The definitions below are a shallow embedding of the core of the engine:
the duck-typed error classifier and the HTTP error classes
(`src/errors/index.ts`), the unified error handler
(`src/errors/error-handler.ts`), the auto error handler of the feature
layer (`src/feature/auto-error-handler.ts`), and the async task scheduler
(`src/feature/async-task-scheduler.ts`).  Parts of the engine whose
implementation files are not in the snapshot (the convention resolver,
the feature scanner's priority sort, the step pipeline / retry machine,
the `FeatureError` class and the `type-guards` helpers) are modelled from
the specification and the repository's tests; each such definition says
so in its doc comment.

JavaScript runtime values are modelled by `JsValue`; an object's
enumerable own properties are an ordered association list with unique
keys, and property assignment (`setProp`) overwrites an existing binding
in place or appends a new one, like a JS property write.
-/

namespace Numflow

/-- A JSON-serialisable JavaScript value (string, number, boolean or
plain object).  Numbers are modelled as integers; nothing in the claims
depends on fractional values. -/
inductive JsValue : Type where
  | str (s : String)
  | num (n : Int)
  | bool (b : Bool)
  | obj (props : List (String × JsValue))

mutual

/-- Decidable equality for `JsValue` (written out because `deriving` does
not handle the nested `List` occurrence). -/
def jsDecEq : (a b : JsValue) → Decidable (a = b)
  | .str a, .str b =>
      if h : a = b then .isTrue (by rw [h])
      else .isFalse (fun he => h (by cases he; rfl))
  | .num a, .num b =>
      if h : a = b then .isTrue (by rw [h])
      else .isFalse (fun he => h (by cases he; rfl))
  | .bool a, .bool b =>
      if h : a = b then .isTrue (by rw [h])
      else .isFalse (fun he => h (by cases he; rfl))
  | .obj a, .obj b =>
      match jsDecEqL a b with
      | .isTrue h => .isTrue (by rw [h])
      | .isFalse h => .isFalse (fun he => h (by cases he; rfl))
  | .str _, .num _ => .isFalse (fun h => JsValue.noConfusion h)
  | .str _, .bool _ => .isFalse (fun h => JsValue.noConfusion h)
  | .str _, .obj _ => .isFalse (fun h => JsValue.noConfusion h)
  | .num _, .str _ => .isFalse (fun h => JsValue.noConfusion h)
  | .num _, .bool _ => .isFalse (fun h => JsValue.noConfusion h)
  | .num _, .obj _ => .isFalse (fun h => JsValue.noConfusion h)
  | .bool _, .str _ => .isFalse (fun h => JsValue.noConfusion h)
  | .bool _, .num _ => .isFalse (fun h => JsValue.noConfusion h)
  | .bool _, .obj _ => .isFalse (fun h => JsValue.noConfusion h)
  | .obj _, .str _ => .isFalse (fun h => JsValue.noConfusion h)
  | .obj _, .num _ => .isFalse (fun h => JsValue.noConfusion h)
  | .obj _, .bool _ => .isFalse (fun h => JsValue.noConfusion h)

/-- Decidable equality for property lists of `JsValue`s. -/
def jsDecEqL : (a b : List (String × JsValue)) → Decidable (a = b)
  | [], [] => .isTrue rfl
  | [], _ :: _ => .isFalse (fun h => List.noConfusion h)
  | _ :: _, [] => .isFalse (fun h => List.noConfusion h)
  | (k1, v1) :: t1, (k2, v2) :: t2 =>
      if hk : k1 = k2 then
        match jsDecEq v1 v2 with
        | .isTrue hv =>
            match jsDecEqL t1 t2 with
            | .isTrue ht => .isTrue (by rw [hk, hv, ht])
            | .isFalse ht => .isFalse (fun he => by injection he with h1 h2; exact ht h2)
        | .isFalse hv =>
            .isFalse (fun he => by
              injection he with h1 h2
              injection h1 with hk2 hv2
              exact hv hv2)
      else
        .isFalse (fun he => by
          injection he with h1 h2
          injection h1 with hk2 hv2
          exact hk hk2)

end

instance : DecidableEq JsValue := jsDecEq

/-- Property read on an association-list object: the value bound to `k`,
or `none` (i.e. `undefined`) when the key is absent. -/
def getKey : List (String × JsValue) → String → Option JsValue
  | [], _ => none
  | (a, v) :: t, k => if a = k then some v else getKey t k

/-- Property write on an association-list object: overwrite the binding
of `k` in place when present, append it otherwise (JS assignment). -/
def setProp : List (String × JsValue) → String → JsValue → List (String × JsValue)
  | [], k, v => [(k, v)]
  | (a, w) :: t, k, v => if a = k then (k, v) :: t else (a, w) :: setProp t k v

/-- JavaScript truthiness of a (present) value. -/
def jsTruthy : JsValue → Bool
  | .str s => !(s == "")
  | .num n => !(n == 0)
  | .bool b => b
  | .obj _ => true

/-- The `Error` classes of the engine that matter to `instanceof` checks:
a plain `Error`, a (subclass of) `HttpError`, the feature layer's
`FeatureError`, its subclass `FeatureValidationError`, and
`FeatureExecutionError` (which extends `HttpError`). -/
inductive EKind : Type where
  | plain
  | httpE
  | featureE
  | featureValidationE
  | featureExecE
deriving DecidableEq

/-- `error instanceof HttpError` — true for `HttpError` and its subclass
`FeatureExecutionError`. -/
def instOfHttp : EKind → Bool
  | .httpE => true
  | .featureExecE => true
  | _ => false

/-- `error instanceof FeatureError` — true for `FeatureError` and its
subclass `FeatureValidationError`. -/
def instOfFeature : EKind → Bool
  | .featureE => true
  | .featureValidationE => true
  | _ => false

/-- `error instanceof FeatureExecutionError`. -/
def instOfFeatureExec : EKind → Bool
  | .featureExecE => true
  | _ => false

/-- `error instanceof FeatureValidationError`. -/
def instOfFeatureValidation : EKind → Bool
  | .featureValidationE => true
  | _ => false

/-- The step metadata attached to feature errors (`{number, name}`). -/
structure StepInfo : Type where
  number : Int
  stepName : String
deriving DecidableEq

/-- An `Error` instance: its class (`kind`), the standard non-enumerable
`name` / `message` / `stack` slots, its enumerable own properties
(`props`, where class fields such as `statusCode`, `isOperational`,
`code` or `validationErrors` live), and the feature-layer slots `step`
and `originalError`. -/
inductive ErrValue : Type where
  | mk (kind : EKind) (ename message : String) (stack : Option String)
       (props : List (String × JsValue)) (step : Option StepInfo)
       (originalError : Option ErrValue)

mutual

/-- Decidable equality for `ErrValue` (written out because `deriving`
does not handle the nested `Option` occurrence). -/
def errDecEq : (a b : ErrValue) → Decidable (a = b)
  | .mk k1 n1 m1 s1 p1 t1 o1, .mk k2 n2 m2 s2 p2 t2 o2 =>
      match optErrDecEq o1 o2 with
      | .isFalse ho =>
          .isFalse (fun he => by
            injection he with h1 h2 h3 h4 h5 h6 h7
            exact ho h7)
      | .isTrue ho =>
          if hrest : k1 = k2 ∧ n1 = n2 ∧ m1 = m2 ∧ s1 = s2 ∧ p1 = p2 ∧ t1 = t2 then
            .isTrue (by
              obtain ⟨h1, h2, h3, h4, h5, h6⟩ := hrest
              rw [h1, h2, h3, h4, h5, h6, ho])
          else
            .isFalse (fun he => by
              injection he with h1 h2 h3 h4 h5 h6 h7
              exact hrest ⟨h1, h2, h3, h4, h5, h6⟩)

/-- Decidable equality for `Option ErrValue`. -/
def optErrDecEq : (a b : Option ErrValue) → Decidable (a = b)
  | none, none => .isTrue rfl
  | none, some _ => .isFalse (fun h => Option.noConfusion h)
  | some _, none => .isFalse (fun h => Option.noConfusion h)
  | some x, some y =>
      match errDecEq x y with
      | .isTrue h => .isTrue (by rw [h])
      | .isFalse h => .isFalse (fun he => h (by injection he))

end

instance : DecidableEq ErrValue := errDecEq

def ErrValue.kind : ErrValue → EKind
  | .mk k _ _ _ _ _ _ => k

def ErrValue.ename : ErrValue → String
  | .mk _ n _ _ _ _ _ => n

def ErrValue.message : ErrValue → String
  | .mk _ _ m _ _ _ _ => m

def ErrValue.stack : ErrValue → Option String
  | .mk _ _ _ s _ _ _ => s

def ErrValue.props : ErrValue → List (String × JsValue)
  | .mk _ _ _ _ p _ _ => p

def ErrValue.step : ErrValue → Option StepInfo
  | .mk _ _ _ _ _ st _ => st

def ErrValue.originalError : ErrValue → Option ErrValue
  | .mk _ _ _ _ _ _ o => o

/-- An arbitrary JavaScript value as it can be thrown or passed to the
classifiers: `null`, `undefined`, a string, a number, a boolean, a plain
object, or an `Error` instance. -/
inductive JsAny : Type where
  | nullV
  | undefV
  | strV (s : String)
  | numV (n : Int)
  | boolV (b : Bool)
  | objV (props : List (String × JsValue))
  | errV (e : ErrValue)
deriving DecidableEq

/-- `value instanceof Error`. -/
def isErrorInstance : JsAny → Bool
  | .errV _ => true
  | _ => false

/-- Read the numeric `statusCode` property of an error, if any. -/
def numStatus (e : ErrValue) : Option Int :=
  match getKey e.props "statusCode" with
  | some (.num n) => some n
  | _ => none

/-- Modelled from the spec: the `hasStatusCode` type guard of
`src/utils/type-guards.ts`, whose implementation file is absent from the
snapshot.  Per its documented contract ("has a numeric statusCode
property", §4.4 of the spec), it holds of any object value carrying a
`statusCode` property of number type. -/
def hasStatusCode : JsAny → Bool
  | .objV ps => match getKey ps "statusCode" with
                | some (.num _) => true
                | _ => false
  | .errV e => (numStatus e).isSome
  | _ => false

/-- Modelled from the spec: the `hasCode` type guard of
`src/utils/type-guards.ts` (absent from the snapshot): the error carries
a string `code` property (`ErrorResponse.code` is typed `string`). -/
def hasCode (e : ErrValue) : Bool :=
  match getKey e.props "code" with
  | some (.str _) => true
  | _ => false

/-- Modelled from the spec: the `hasValidationErrors` type guard of
`src/utils/type-guards.ts` (absent from the snapshot): the error carries
a `validationErrors` object property (a record of field errors). -/
def hasValidationErrors (e : ErrValue) : Bool :=
  match getKey e.props "validationErrors" with
  | some (.obj _) => true
  | _ => false

/-- `isHttpError` from `src/errors/index.ts`: true for genuine
`HttpError` instances, and by duck typing for any `Error` instance with
a numeric `statusCode` property; false for everything else. -/
def isHttpError : JsAny → Bool
  | .errV e => instOfHttp e.kind || (numStatus e).isSome
  | _ => false

/-- Truthiness of the `isOperational` property (`=== true`). -/
def isOpFlag (e : ErrValue) : Bool :=
  match getKey e.props "isOperational" with
  | some (.bool true) => true
  | _ => false

/-- `isOperationalError` from `src/errors/index.ts`: reads the
`isOperational` flag of an `HttpError` instance, falls back to duck
typing for other `Error` instances with a numeric `statusCode`, and is
false for non-`Error` values. -/
def isOperationalError : JsAny → Bool
  | .errV e =>
      if instOfHttp e.kind then isOpFlag e
      else if (numStatus e).isSome then isOpFlag e
      else false
  | _ => false

/-- The `statusCode` the `FeatureExecutionError` constructor resolves:
the original error's numeric `statusCode` when present (duck typing via
`hasStatusCode`), else 500. -/
def statusOrDefault (o : ErrValue) : Int :=
  match numStatus o with
  | some n => n
  | none => 500

/-- The `FeatureExecutionError` constructor from `src/errors/index.ts`:
wraps `originalError` by reference, resolves `statusCode` structurally
(`hasStatusCode`, not `instanceof`), inherits `HttpError`'s enumerable
fields (`statusCode`, `isOperational := true`, `suggestion`, `docUrl`)
and stores the step metadata. -/
def FeatureExecutionErrorMk (o : ErrValue) (st : Option StepInfo) : ErrValue :=
  let suggestionText :=
    match st with
    | some s =>
        "Error occurred in step " ++ toString s.number ++ " (" ++ s.stepName ++
          "). Check the step implementation and ensure all dependencies are available."
    | none =>
        "Error occurred during feature execution. Review your step implementations and error handling."
  .mk .featureExecE "FeatureExecutionError" o.message none
    [("statusCode", .num (statusOrDefault o)),
     ("isOperational", .bool true),
     ("suggestion", .str suggestionText),
     ("docUrl", .str "https://numflow.dev/docs/errors#feature-execution-error")]
    st (some o)

/-- The observable state of a `ServerResponse`: the `headersSent` flag,
the status code, the headers, and the body written by `end`. -/
structure ResState : Type where
  headersSent : Bool
  statusCode : Int
  headers : List (String × String)
  body : Option JsValue
deriving DecidableEq

/-- `res.setHeader`: overwrite or append a header. -/
def setHeaderL : List (String × String) → String → String → List (String × String)
  | [], k, v => [(k, v)]
  | (a, w) :: t, k, v => if a = k then (k, v) :: t else (a, w) :: setHeaderL t k v

/-- The standard `Error` keys that `sendErrorResponse` refuses to copy
from `originalError` into the response. -/
def excludedKeys : List String :=
  ["message", "stack", "name", "statusCode", "isOperational"]

/-- The `Object.keys(originalError)` copy loop of `sendErrorResponse`
(`src/errors/error-handler.ts`): assign every enumerable own property of
the original error onto the response object, excluding the standard
`message`/`stack`/`name`/`statusCode`/`isOperational` set. -/
def copyCustomProps (r : List (String × JsValue)) (ps : List (String × JsValue)) :
    List (String × JsValue) :=
  ps.foldl (fun acc kv => if kv.1 ∈ excludedKeys then acc else setProp acc kv.1 kv.2) r

/-- The known-property extraction of `sendErrorResponse`: `code` (when
`hasCode`), `validationErrors` (when `hasValidationErrors`), and truthy
`suggestion` / `docUrl`, read from the given error's properties. -/
def extractKnownProps (r : List (String × JsValue)) (e : ErrValue) :
    List (String × JsValue) :=
  let r1 := match getKey e.props "code" with
            | some (.str c) => setProp r "code" (.str c)
            | _ => r
  let r2 := match getKey e.props "validationErrors" with
            | some (.obj ve) => setProp r1 "validationErrors" (.obj ve)
            | _ => r1
  let r3 := match getKey e.props "suggestion" with
            | some v => if jsTruthy v then setProp r2 "suggestion" v else r2
            | none => r2
  match getKey e.props "docUrl" with
  | some v => if jsTruthy v then setProp r3 "docUrl" v else r3
  | none => r3

/-- The status code `sendErrorResponse` puts on the wire: the error's
`statusCode` when it is an `HttpError` (by classifier) or a
`FeatureError` instance, else 500. -/
def sendStatusCode (err : ErrValue) : Int :=
  if isHttpError (.errV err) then statusOrDefault err
  else if instOfFeature err.kind then statusOrDefault err
  else 500

/-- The `step` object (`{number, name}`) embedded in error responses. -/
def stepObj (st : StepInfo) : JsValue :=
  .obj [("number", .num st.number), ("name", .str st.stepName)]

/-- The `error` object of the JSON body built by `sendErrorResponse`
(`src/errors/error-handler.ts`): message and status code, then — for a
`FeatureError` — the step info and the original error's known and custom
properties; for a bare `HttpError`, its own known properties; then the
`FeatureExecutionError` step info, and the stack in development mode. -/
def mkErrResp (err : ErrValue) (includeStack : Bool) : List (String × JsValue) :=
  let base : List (String × JsValue) :=
    [("message", .str (if err.message = "" then "Internal server error" else err.message)),
     ("statusCode", .num (sendStatusCode err))]
  let r :=
    if instOfFeature err.kind then
      let r1 := match err.step with
                | some st => setProp base "step" (stepObj st)
                | none => base
      match err.originalError with
      | some o =>
          let r2 := if isHttpError (.errV o) then extractKnownProps r1 o else r1
          copyCustomProps r2 o.props
      | none => r1
    else if isHttpError (.errV err) then
      extractKnownProps base err
    else base
  let r2 :=
    if instOfFeatureExec err.kind then
      match err.step with
      | some st => setProp r "step" (stepObj st)
      | none => r
    else r
  if includeStack then
    match err.stack with
    | some s => if s = "" then r2 else setProp r2 "stack" (.str s)
    | none => r2
  else r2

/-- `sendErrorResponse` from `src/errors/error-handler.ts` as a response
transformer: a no-op when headers were already sent, otherwise it sets
the status code, the JSON content type, and ends the response with the
`{error: {...}}` body. -/
def sendErrorResponse (err : ErrValue) (res : ResState) (includeStack : Bool) : ResState :=
  if res.headersSent then res
  else
    { headersSent := true
      statusCode := sendStatusCode err
      headers := setHeaderL res.headers "Content-Type" "application/json"
      body := some (.obj [("error", .obj (mkErrResp err includeStack))]) }

/-- `isFeatureError` from `src/feature/auto-error-handler.ts`: a genuine
`FeatureError` instance still named "FeatureError" (excluding the
`ValidationError` subclass), or by duck typing any error named
"FeatureError" with a numeric `statusCode`. -/
def isFeatureErrorA (e : ErrValue) : Bool :=
  (instOfFeature e.kind && e.ename == "FeatureError") ||
    (e.ename == "FeatureError" && (numStatus e).isSome)

/-- `isValidationError` from `src/feature/auto-error-handler.ts`: a
genuine `FeatureValidationError` instance, or by duck typing any error
named "ValidationError" with a numeric `statusCode`. -/
def isValidationErrorA (e : ErrValue) : Bool :=
  instOfFeatureValidation e.kind ||
    (e.ename == "ValidationError" && (numStatus e).isSome)

/-- The JSON payload of `AutoErrorHandler.sendErrorResponse`: the status
code put on the response (`none` models `undefined`), the `error` name,
the `message`, the `details.step` object if any, and the stack included
only in development. -/
structure AutoResp : Type where
  status : Option Int
  errName : String
  msg : String
  stepDetails : Option StepInfo
  stackOut : Option String
deriving DecidableEq

/-- `AutoErrorHandler.sendErrorResponse` from
`src/feature/auto-error-handler.ts`: classify the error by duck typing
(feature error, validation error, any error with a `statusCode`, generic
error) and produce the JSON response fields. -/
def autoSendErrorResponse (devMode : Bool) (e : ErrValue) : AutoResp :=
  let base :=
    if isFeatureErrorA e then
      { status := numStatus e, errName := e.ename, msg := e.message,
        stepDetails := e.step, stackOut := none : AutoResp }
    else if isValidationErrorA e then
      { status := numStatus e, errName := e.ename, msg := e.message,
        stepDetails := none, stackOut := none }
    else if (numStatus e).isSome then
      { status := numStatus e,
        errName := if e.ename = "" then "Error" else e.ename,
        msg := if e.message = "" then "An unexpected error occurred" else e.message,
        stepDetails := none, stackOut := none }
    else
      { status := some 500, errName := "Error",
        msg := if e.message = "" then "An unexpected error occurred" else e.message,
        stepDetails := none, stackOut := none }
  { base with stackOut := if devMode then e.stack else none }

/-- The per-request shared mutable Context: a key/value store plus the
retry attempt counter the retry machine persists in it. -/
structure Ctx : Type where
  vars : List (String × JsValue)
  retryCount : Nat
deriving DecidableEq

/-- The request object as the pipeline sees it. -/
structure Req : Type where
  method : String
  url : String
deriving DecidableEq

/-- An async task as scanned: name, source path, and the task function.
A task receives only the Context; its run yields the mutated context and
`some message` when it threw. -/
structure AsyncTaskInfo : Type where
  taskName : String
  path : String
  fn : Ctx → Option String × Ctx

/-- The log events the Async Task Scheduler can emit (the wall-clock
duration printed by the completion message is outside the model). -/
inductive SchedLog : Type where
  | scheduling (n : Nat)
  | taskStart (taskName : String)
  | taskCompleted (taskName : String)
  | taskFailed (taskName path msg : String)
  | allCompleted (n : Nat)
deriving DecidableEq

/-- `log` / `logError` of `AsyncTaskScheduler`: emit nothing unless
debug mode is on. -/
def logIf (debug : Bool) (e : SchedLog) : List SchedLog :=
  if debug then [e] else []

/-- `AsyncTaskScheduler.executeTask`: log the start, run the task
function, log completion on success; a throw propagates to the caller. -/
def executeTask (debug : Bool) (t : AsyncTaskInfo) (c : Ctx) :
    (Option String × Ctx) × List SchedLog :=
  let pre := logIf debug (.taskStart t.taskName)
  match t.fn c with
  | (none, c') => ((none, c'), pre ++ logIf debug (.taskCompleted t.taskName))
  | (some m, c') => ((some m, c'), pre)

/-- The `for` loop of `AsyncTaskScheduler.executeInBackground`: run the
tasks sequentially, catching each task's failure, logging it, and
continuing with the remaining tasks.  Returns the final context, the
emitted logs, and the names of the tasks that were executed, in
execution order. -/
def runTasks (debug : Bool) : List AsyncTaskInfo → Ctx → Ctx × List SchedLog × List String
  | [], c => (c, [], [])
  | t :: rest, c =>
      let ((failure, c'), lg) := executeTask debug t c
      let failLog := match failure with
                     | some m => logIf debug (.taskFailed t.taskName t.path m)
                     | none => []
      let (c'', lgs, executed) := runTasks debug rest c'
      (c'', lg ++ failLog ++ lgs, t.taskName :: executed)

/-- `AsyncTaskScheduler.executeInBackground`: the task loop followed by
the "all tasks completed" log. -/
def executeInBackground (debug : Bool) (ts : List AsyncTaskInfo) (c : Ctx) :
    Ctx × List SchedLog × List String :=
  let (c', lgs, executed) := runTasks debug ts c
  (c', lgs ++ logIf debug (.allCompleted ts.length), executed)

/-- `scheduleAsyncTasks` from `src/feature/async-task-scheduler.ts`,
with the already-sent response threaded through to expose the frame
property: the scheduler never touches it (its class holds only the task
list and the context).  An empty task list is a no-op. -/
def scheduleAsyncTasks (debug : Bool) (ts : List AsyncTaskInfo) (c : Ctx) (res : ResState) :
    Ctx × ResState × List SchedLog × List String :=
  if ts.isEmpty then (c, res, [], [])
  else
    let (c', lgs, executed) := executeInBackground debug ts c
    (c', res, logIf debug (.scheduling ts.length) ++ lgs, executed)

/-- Modelled from the spec: the `FeatureError` wrapper built by the Step
Pipeline when a step throws (`src/feature/types.ts` is absent from the
snapshot).  Per §3 of the spec and the repository's tests, it keeps the
original message, references the triggering error verbatim as
`originalError`, records the active step, and resolves its HTTP status
code from the original error (500 when none is discoverable). -/
def mkFeatureError (e : ErrValue) (st : StepInfo) : ErrValue :=
  .mk .featureE "FeatureError" e.message none
    [("statusCode", .num (statusOrDefault e))]
    (some st) (some e)

/-- A step as scanned: its metadata and the step function.  Invoked with
(Context, request, response), a step either returns (with the context
and response it may have mutated) or throws. -/
inductive StepRes : Type where
  | ret (c : Ctx) (r : ResState)
  | threw (e : ErrValue) (c : Ctx)

structure StepDef : Type where
  info : StepInfo
  fn : Ctx → Req → ResState → StepRes

/-- Outcome of one sequential run of the step list. -/
inductive RunOut : Type where
  | completed (c : Ctx) (r : ResState)
  | early (c : Ctx) (r : ResState)
  | failed (e : ErrValue) (st : StepInfo) (c : Ctx) (r : ResState)

/-- Modelled from the spec: one `Running(0) → ...` pass of the Step
Pipeline (§4.3; the executor implementation is absent from the
snapshot).  Steps run strictly sequentially; a step that has written the
response short-circuits the rest ("early return"); a throw stops the
pass with the failing step recorded.  Also returns the names of the
steps that were invoked, in order. -/
def runSteps : List StepDef → Ctx → Req → ResState → RunOut × List String
  | [], c, _, r => (.completed c r, [])
  | s :: rest, c, q, r =>
      match s.fn c q r with
      | .ret c' r' =>
          if r'.headersSent then (.early c' r', [s.info.stepName])
          else
            let (out, called) := runSteps rest c' q r'
            (out, s.info.stepName :: called)
      | .threw e c' => (.failed e s.info c' r, [s.info.stepName])

/-- What an error hook can do: return nothing, return a Retry Directive
`{delay, maxAttempts}`, or (re)throw. -/
inductive HookRes : Type where
  | nothingR
  | retryD (delay : Nat) (maxAttempts : Nat)
  | threw (e : ErrValue)

/-- An error hook: invoked with (error, Context, request, response), it
may mutate the context and write the response, and yields a `HookRes`. -/
def HookFn : Type := ErrValue → Ctx → Req → ResState → HookRes × Ctx × ResState

/-- A record of one error-hook invocation: the arguments it received. -/
structure HookCall : Type where
  err : ErrValue
  ctx : Ctx
  req : Req
  res : ResState
deriving DecidableEq

/-- Terminal outcome of the pipeline: completed (response path done), or
escalated to the error-response collaborator with a terminal error. -/
inductive FinalOut : Type where
  | done (c : Ctx) (r : ResState)
  | escalated (e : ErrValue) (c : Ctx) (r : ResState)
deriving DecidableEq

/-- The observable trace of a pipeline execution: which steps ran and
which error-hook invocations happened. -/
structure PipeTrace : Type where
  stepCalls : List String
  hookCalls : List HookCall
deriving DecidableEq

/-- Modelled from the spec: the Step Pipeline / Retry State Machine of
§4.3 (the executor implementation is absent from the snapshot; the hook
invocation follows the repository's tests, which require the hook's
argument to expose the original error as its `originalError` property).
On a step failure the thrown error is wrapped as a `FeatureError` and
the hook is invoked with (wrapped error, Context, request, response); a
Retry Directive increments the attempt counter persisted in the Context
and restarts from step zero while the counter is below `maxAttempts`,
else the most recent error escalates.  Without a hook the failure is
wrapped as a `FeatureExecutionError` and escalates.  `fuel` bounds the
number of passes; `none` means the bound was exhausted. -/
def runFeature : Nat → List StepDef → Option HookFn → Req → Ctx → ResState →
    Option (FinalOut × PipeTrace)
  | 0, _, _, _, _, _ => none
  | Nat.succ fuel, steps, hk, q, c, r =>
      match runSteps steps c q r with
      | (.completed c' r', called) => some (.done c' r', ⟨called, []⟩)
      | (.early c' r', called) => some (.done c' r', ⟨called, []⟩)
      | (.failed e st c' r', called) =>
          match hk with
          | none => some (.escalated (FeatureExecutionErrorMk e (some st)) c' r', ⟨called, []⟩)
          | some h =>
              let fe := mkFeatureError e st
              let hc : HookCall := ⟨fe, c', q, r'⟩
              match h fe c' q r' with
              | (.retryD _ m, c2, r2) =>
                  let c3 : Ctx := { c2 with retryCount := c2.retryCount + 1 }
                  if c3.retryCount < m then
                    match runFeature fuel steps hk q c3 r2 with
                    | some (out, tr) =>
                        some (out, ⟨called ++ tr.stepCalls, hc :: tr.hookCalls⟩)
                    | none => none
                  else some (.escalated fe c3 r2, ⟨called, [hc]⟩)
              | (.threw e2, c2, r2) => some (.escalated e2 c2 r2, ⟨called, [hc]⟩)
              | (.nothingR, c2, r2) =>
                  if r2.headersSent then some (.done c2 r2, ⟨called, [hc]⟩)
                  else some (.escalated fe c2 r2, ⟨called, [hc]⟩)

/-- A path segment of a route pattern: literal, or a named parameter. -/
inductive Segment : Type where
  | lit (s : String)
  | param (s : String)
deriving DecidableEq

/-- A Route Definition as far as priority ranking is concerned. -/
structure Route : Type where
  segs : List Segment
deriving DecidableEq

def isParamSeg : Segment → Bool
  | .lit _ => false
  | .param _ => true

/-- Count of literal (static) segments of a route. -/
def litCount (r : Route) : Nat :=
  (r.segs.filter (fun s => !isParamSeg s)).length

/-- Count of parameter segments of a route. -/
def paramCount (r : Route) : Nat :=
  (r.segs.filter (fun s => isParamSeg s)).length

/-- A route has only literal segments. -/
def allLiteral (r : Route) : Bool :=
  r.segs.all (fun s => !isParamSeg s)

/-- A route has at least one parameter segment. -/
def hasParam (r : Route) : Bool :=
  r.segs.any isParamSeg

/-- Modelled from the spec: the priority key of a Route Definition
(§4.2; the `FeatureScanner.sortFeaturesByPriority` implementation is
absent from the snapshot).  Lexicographic: count of literal segments
descending, then count of parameter segments ascending; remaining ties
are kept in declaration order by the stable sort. -/
def priorityKey (r : Route) : Int ×ₗ Nat :=
  toLex (-(litCount r : Int), paramCount r)

/-- The total preorder the scanner sorts routes by. -/
def priorityLE (a b : Route) : Prop :=
  priorityKey a ≤ priorityKey b

instance : DecidableRel priorityLE := fun a b =>
  inferInstanceAs (Decidable (priorityKey a ≤ priorityKey b))

instance : IsTotal Route priorityLE := ⟨fun a b => le_total (priorityKey a) (priorityKey b)⟩

instance : IsTrans Route priorityLE := ⟨fun _ _ _ h1 h2 => le_trans h1 h2⟩

/-- Modelled from the spec: `sortFeaturesByPriority` (§4.2) sorts the
scanned routes by the priority tuple so that more specific routes are
registered first. -/
def sortFeaturesByPriority (rs : List Route) : List Route :=
  List.insertionSort priorityLE rs

/-- The `@verb` method-boundary directory names and the HTTP methods
they encode. -/
def methodSegs : List (String × String) :=
  [("@get", "GET"), ("@post", "POST"), ("@put", "PUT"), ("@delete", "DELETE"),
   ("@patch", "PATCH"), ("@head", "HEAD"), ("@options", "OPTIONS")]

/-- The HTTP method a directory segment encodes, if it is a method
boundary. -/
def methodOf (s : String) : Option String :=
  methodSegs.lookup s

/-- Modelled from the spec: locate the method boundary (§4.1) — the
nearest ancestor `@verb` directory, i.e. the last method marker of the
segment list — returning the segments strictly before it and the marker
itself. -/
def splitBoundary : List String → Option (List String × String)
  | [] => none
  | s :: t =>
      match splitBoundary t with
      | some (pre, m) => some (s :: pre, m)
      | none => if (methodOf s).isSome then some ([], s) else none

/-- Modelled from the spec: directory-segment conversion (§4.1) — a
segment wrapped in square brackets (`[name]`) becomes the parameter
segment `:name`, every other segment stays literal.  (Written on the
character list so that it evaluates inside the kernel.) -/
def convSeg (s : String) : String :=
  match s.data with
  | '[' :: rest =>
      if rest.getLast? = some ']' then ⟨':' :: rest.dropLast⟩ else s
  | _ => s

/-- Path segments joined in directory order with a leading `/`; the
empty list yields `/`. -/
def renderPath (segs : List String) : String :=
  "/" ++ String.intercalate "/" (segs.map convSeg)

/-- Modelled from the spec: `ConventionResolver.resolveConventions`
(§4.1; the `src/feature/convention.ts` implementation is absent from the
snapshot) restricted to method/path inference for a directory under the
features root: find the method boundary and build the path from the
segments strictly between the root and the boundary. -/
def resolveDir (dir root : List String) : Option (String × String) :=
  if root.isPrefixOf dir then
    match splitBoundary (dir.drop root.length) with
    | some (pre, seg) =>
        match methodOf seg with
        | some m => some (m, renderPath pre)
        | none => none
    | none => none
  else none

/-- The error value with its class replaced — used to state that a
computation is structural (independent of `instanceof`). -/
def withKind (e : ErrValue) (k : EKind) : ErrValue :=
  .mk k e.ename e.message e.stack e.props e.step e.originalError

/-- The context a step run ended in (whether it returned or threw). -/
def StepRes.ctx : StepRes → Ctx
  | .ret c _ => c
  | .threw _ c => c

/-- The context a pipeline pass ended in. -/
def RunOut.ctx : RunOut → Ctx
  | .completed c _ => c
  | .early c _ => c
  | .failed _ _ c _ => c

/-- The hook always answers with a Retry Directive whose
maximum-attempts bound is `N`. -/
def alwaysRetryWith (h : HookFn) (N : Nat) : Prop :=
  ∀ e c q r, ∃ d, (h e c q r).1 = HookRes.retryD d N

/-- The step functions never touch the retry attempt counter persisted
in the Context (it is engine-owned state). -/
def stepsPreserveCounter (steps : List StepDef) : Prop :=
  ∀ s ∈ steps, ∀ c q r, ((s.fn c q r).ctx).retryCount = c.retryCount

/-- The hook never touches the retry attempt counter persisted in the
Context. -/
def hookPreservesCounter (h : HookFn) : Prop :=
  ∀ e c q r, ((h e c q r).2.1).retryCount = c.retryCount

/-- Counterexample input for the route-priority claim: an all-literal
route `/blog/x` ... -/
def c2LitRoute : Route := ⟨[.lit "blog", .lit "x"]⟩

/-- ... and a parameterized route `/blog/a/b/:id` sharing the `/blog`
prefix but having more literal segments. -/
def c2ParamRoute : Route := ⟨[.lit "blog", .lit "a", .lit "b", .param "id"]⟩

/-- Counterexample input for the error-hook claim: a plain thrown
error. -/
def c4Err : ErrValue := .mk .plain "Error" "boom" none [] none none

/-- A step that always throws `c4Err`. -/
def c4Step : StepDef := ⟨⟨100, "100-fail.js"⟩, fun c _ _ => .threw c4Err c⟩

/-- An error hook that does nothing (its argument is recorded in the
pipeline trace). -/
def c4Hook : HookFn := fun _ c _ r => (.nothingR, c, r)

def c4Req : Req := ⟨"POST", "/api/orders"⟩

def c4Ctx : Ctx := ⟨[], 0⟩

def c4Res : ResState := ⟨false, 200, [], none⟩

/-- Witness input for the retry claim: a hook that always answers with
a Retry Directive `{delay: 10, maxAttempts: 3}`. -/
def c3Hook : HookFn := fun _ c _ r => (.retryD 10 3, c, r)

/-- Counterexample input for the scheduler claim: a task that throws. -/
def c5FailTask : AsyncTaskInfo := ⟨"t1", "/tasks/t1.js", fun c => (some "boom", c)⟩

/-- A second task that succeeds. -/
def c5OkTask : AsyncTaskInfo := ⟨"t2", "/tasks/t2.js", fun c => (none, c)⟩

def c5Ctx : Ctx := ⟨[], 0⟩

/-- The response that was already sent when the scheduler runs. -/
def c5Res : ResState := ⟨true, 200, [], some (.str "ok")⟩

/-- Witness input: a `BusinessError`-like original error carrying a
`code`, a `validationErrors` map and a custom field. -/
def c1Orig : ErrValue :=
  .mk .httpE "BusinessError" "Out of stock" (some "stacktrace0")
    [("statusCode", .num 400), ("isOperational", .bool true),
     ("code", .str "OUT_OF_STOCK"),
     ("validationErrors", .obj [("email", .obj [])]),
     ("retryable", .bool true)]
    none none

/-- Witness input: the `FeatureError` wrapping `c1Orig` at step 200. -/
def c1FeatErr : ErrValue :=
  mkFeatureError c1Orig ⟨200, "200-check-stock.js"⟩

/-! ## Helper lemmas about property maps -/

theorem getKey_setProp_self (l : List (String × JsValue)) (k : String) (v : JsValue) :
    getKey (setProp l k v) k = some v := by
  induction l with
  | nil => simp [setProp, getKey]
  | cons hd tl ih =>
      obtain ⟨a, w⟩ := hd
      by_cases h : a = k
      · simp [setProp, h, getKey]
      · simp [setProp, h, getKey, ih]

theorem getKey_setProp_ne (l : List (String × JsValue)) (k k' : String) (v : JsValue)
    (h : k' ≠ k) : getKey (setProp l k v) k' = getKey l k' := by
  induction l with
  | nil => simp [setProp, getKey, Ne.symm h]
  | cons hd tl ih =>
      obtain ⟨a, w⟩ := hd
      by_cases ha : a = k
      · subst ha
        simp [setProp, getKey, Ne.symm h]
      · simp [setProp, ha, getKey, ih]

theorem copyCustomProps_cons (r : List (String × JsValue)) (k : String) (v : JsValue)
    (ps : List (String × JsValue)) :
    copyCustomProps r ((k, v) :: ps) =
      copyCustomProps (if k ∈ excludedKeys then r else setProp r k v) ps := by
  simp [copyCustomProps]

theorem getKey_copy_of_not_key (ps : List (String × JsValue)) :
    ∀ (r : List (String × JsValue)) (k : String), k ∉ ps.map Prod.fst →
      getKey (copyCustomProps r ps) k = getKey r k := by
  induction ps with
  | nil => intro r k _; simp [copyCustomProps]
  | cons hd tl ih =>
      intro r k hk
      obtain ⟨a, w⟩ := hd
      simp only [List.map_cons, List.mem_cons] at hk
      push_neg at hk
      rw [copyCustomProps_cons]
      rw [ih _ k hk.2]
      by_cases hex : a ∈ excludedKeys
      · simp [hex]
      · simp [hex, getKey_setProp_ne r a k w hk.1]

theorem getKey_copy_of_excluded (ps : List (String × JsValue)) :
    ∀ (r : List (String × JsValue)) (k : String), k ∈ excludedKeys →
      getKey (copyCustomProps r ps) k = getKey r k := by
  induction ps with
  | nil => intro r k _; simp [copyCustomProps]
  | cons hd tl ih =>
      intro r k hk
      obtain ⟨a, w⟩ := hd
      rw [copyCustomProps_cons, ih _ k hk]
      by_cases hex : a ∈ excludedKeys
      · simp [hex]
      · have : a ≠ k := fun he => hex (he ▸ hk)
        simp [hex, getKey_setProp_ne _ _ _ _ (Ne.symm this)]

theorem getKey_copy_of_mem (ps : List (String × JsValue)) :
    ∀ (r : List (String × JsValue)) (k : String) (v : JsValue),
      (k, v) ∈ ps → k ∉ excludedKeys → (ps.map Prod.fst).Nodup →
      getKey (copyCustomProps r ps) k = some v := by
  induction ps with
  | nil => intro r k v hmem; simp at hmem
  | cons hd tl ih =>
      intro r k v hmem hex hnd
      obtain ⟨a, w⟩ := hd
      simp only [List.map_cons, List.nodup_cons] at hnd
      rcases List.mem_cons.mp hmem with heq | htl
      · injection heq with h1 h2
        subst h1; subst h2
        rw [copyCustomProps_cons]
        have hknot : k ∉ tl.map Prod.fst := hnd.1
        rw [getKey_copy_of_not_key tl _ k hknot]
        simp [hex, getKey_setProp_self]
      · rw [copyCustomProps_cons]
        exact ih _ k v htl hex hnd.2

/-! ## C9: `sendErrorResponse` is a no-op once headers are sent -/

/-- **C9.** If `response.headersSent` is already true when
`sendErrorResponse` is called, the function returns immediately and the
response state is completely unchanged: no status code, no header, no
body — a second response is never emitted on the error path. -/
theorem sendErrorResponse_headersSent_noop (err : ErrValue) (res : ResState)
    (includeStack : Bool) (h : res.headersSent = true) :
    sendErrorResponse err res includeStack = res := by
  simp [sendErrorResponse, h]

/-- Witness for C9 at a concrete already-sent response. -/
theorem sendErrorResponse_headersSent_noop_witness :
    sendErrorResponse (.mk .plain "Error" "late failure" none [] none none)
      ⟨true, 200, [("Content-Type", "text/html")], some (.str "done")⟩ true =
      ⟨true, 200, [("Content-Type", "text/html")], some (.str "done")⟩ :=
  sendErrorResponse_headersSent_noop _ _ _ rfl

/-! ## C6: `FeatureExecutionError` preserves the original error -/

/-- **C6.** Constructing `FeatureExecutionError(e, s)` stores `e` itself
by reference as `originalError`, and resolves `statusCode` structurally:
it equals `e.statusCode` whenever `e` carries a numeric `statusCode`
property, defaults to 500 exactly when it does not, and never depends on
the error's class (`instanceof`). -/
theorem featureExecutionError_preserves_original (o : ErrValue) (st : Option StepInfo)
    (k : EKind) (n : Int) :
    (FeatureExecutionErrorMk o st).originalError = some o ∧
    getKey (FeatureExecutionErrorMk o st).props "statusCode" =
      some (.num (statusOrDefault o)) ∧
    (numStatus o = some n → statusOrDefault o = n) ∧
    (numStatus o = none → statusOrDefault o = 500) ∧
    statusOrDefault (withKind o k) = statusOrDefault o := by
  refine ⟨rfl, rfl, ?_, ?_, ?_⟩
  · intro h; simp [statusOrDefault, h]
  · intro h; simp [statusOrDefault, h]
  · simp [statusOrDefault, numStatus, withKind, ErrValue.props]

/-- Witness for C6: a duck-typed 418 error from a foreign module copy
keeps its status and its identity across the wrap. -/
theorem featureExecutionError_preserves_original_witness :
    (FeatureExecutionErrorMk (.mk .plain "TeapotError" "I am a teapot" none
        [("statusCode", .num 418)] none none) none).originalError =
      some (.mk .plain "TeapotError" "I am a teapot" none
        [("statusCode", .num 418)] none none) ∧
    statusOrDefault (.mk .plain "TeapotError" "I am a teapot" none
        [("statusCode", .num 418)] none none) = 418 := by
  have h := featureExecutionError_preserves_original
    (.mk .plain "TeapotError" "I am a teapot" none [("statusCode", .num 418)] none none)
    none .plain 418
  exact ⟨h.1, h.2.2.1 (by decide)⟩

/-! ## C10: the classifiers reject non-`Error` values -/

/-- **C10.** `isHttpError` and `isOperationalError` return false for
every value that is not an `Error` instance — including `null`,
`undefined`, strings, and plain objects carrying a numeric `statusCode`
— and for `Error` instances `isHttpError` holds exactly when the value
is an `HttpError` instance or has a numeric `statusCode` property. -/
theorem isHttpError_non_error_false (v : JsAny) (e : ErrValue) :
    (isErrorInstance v = false →
      isHttpError v = false ∧ isOperationalError v = false) ∧
    (isHttpError (.errV e) = true ↔
      instOfHttp e.kind = true ∨ hasStatusCode (.errV e) = true) := by
  constructor
  · intro h
    cases v <;> simp_all [isErrorInstance, isHttpError, isOperationalError]
  · simp [isHttpError, hasStatusCode, Bool.or_eq_true]

/-- Witness for C10: a plain object with a numeric `statusCode`, the
`null` value metavariable, and a duck-typed error instance. -/
theorem isHttpError_non_error_false_witness :
    isHttpError (.objV [("statusCode", .num 400)]) = false ∧
    isOperationalError (.objV [("statusCode", .num 400)]) = false ∧
    isHttpError .nullV = false ∧
    isHttpError (.errV (.mk .plain "E" "m" none [("statusCode", .num 404)] none none))
      = true := by
  refine ⟨?_, ?_, ?_, ?_⟩
  · exact ((isHttpError_non_error_false (.objV [("statusCode", .num 400)])
      (.mk .plain "E" "m" none [] none none)).1 (by decide)).1
  · exact ((isHttpError_non_error_false (.objV [("statusCode", .num 400)])
      (.mk .plain "E" "m" none [] none none)).1 (by decide)).2
  · exact ((isHttpError_non_error_false .nullV
      (.mk .plain "E" "m" none [] none none)).1 (by decide)).1
  · exact (isHttpError_non_error_false .nullV
      (.mk .plain "E" "m" none [("statusCode", .num 404)] none none)).2.mpr
      (Or.inr (by decide))

/-! ## C7: duck typing makes classification structural -/

/-- Canonical form of `AutoErrorHandler.sendErrorResponse` for errors
with a numeric `statusCode` and non-empty name and message: every branch
answers with the error's own status, name and message, and step details
exactly for errors named "FeatureError". -/
theorem autoSend_canonical (dev : Bool) (e : ErrValue) (hs : (numStatus e).isSome)
    (hn : e.ename ≠ "") (hm : e.message ≠ "") :
    autoSendErrorResponse dev e =
      ⟨numStatus e, e.ename, e.message,
        if e.ename = "FeatureError" then e.step else none,
        if dev then e.stack else none⟩ := by
  by_cases hname : e.ename = "FeatureError"
  · simp [autoSendErrorResponse, isFeatureErrorA, hname, hs]
  · have hfe : isFeatureErrorA e = false := by
      simp [isFeatureErrorA, hname]
    by_cases hval : isValidationErrorA e = true
    · simp [autoSendErrorResponse, hfe, hval, hname]
    · have hval' : isValidationErrorA e = false := by
        simpa using hval
      simp [autoSendErrorResponse, hfe, hval', hs, hname, hn, hm]

/-- **C7.** Two errors with the same structural fields (same declared
name, same numeric `statusCode`, same optional step data, same message)
are classified and answered identically by `AutoErrorHandler` — same
response status code, same error name, same message, same step details —
regardless of which module instance constructed them (their `EKind`s,
i.e. `instanceof` results, are unconstrained). -/
theorem autoErrorHandler_duck_typing_consistent (dev : Bool) (e1 e2 : ErrValue) (n : Int)
    (hname : e1.ename = e2.ename) (hn : e1.ename ≠ "")
    (hmsg : e1.message = e2.message) (hm : e1.message ≠ "")
    (h1 : numStatus e1 = some n) (h2 : numStatus e2 = some n)
    (hstep : e1.step = e2.step) :
    (autoSendErrorResponse dev e1).status = (autoSendErrorResponse dev e2).status ∧
    (autoSendErrorResponse dev e1).errName = (autoSendErrorResponse dev e2).errName ∧
    (autoSendErrorResponse dev e1).msg = (autoSendErrorResponse dev e2).msg ∧
    (autoSendErrorResponse dev e1).stepDetails =
      (autoSendErrorResponse dev e2).stepDetails := by
  rw [autoSend_canonical dev e1 (by simp [h1]) hn hm,
      autoSend_canonical dev e2 (by simp [h2]) (hname ▸ hn) (hmsg ▸ hm)]
  simp [h1, h2, hname, hmsg, hstep]

/-- Witness for C7: a genuine `FeatureError` instance and a structurally
equal copy from an independent module (which fails `instanceof`) get the
same response. -/
theorem autoErrorHandler_duck_typing_consistent_witness :
    (autoSendErrorResponse false (.mk .featureE "FeatureError" "Out of stock" (some "s1")
        [("statusCode", .num 400)] (some ⟨200, "200-check.js"⟩) none)).status =
      (autoSendErrorResponse false (.mk .plain "FeatureError" "Out of stock" (some "s2")
        [("statusCode", .num 400)] (some ⟨200, "200-check.js"⟩) none)).status ∧
    (autoSendErrorResponse false (.mk .featureE "FeatureError" "Out of stock" (some "s1")
        [("statusCode", .num 400)] (some ⟨200, "200-check.js"⟩) none)).errName =
      (autoSendErrorResponse false (.mk .plain "FeatureError" "Out of stock" (some "s2")
        [("statusCode", .num 400)] (some ⟨200, "200-check.js"⟩) none)).errName ∧
    (autoSendErrorResponse false (.mk .featureE "FeatureError" "Out of stock" (some "s1")
        [("statusCode", .num 400)] (some ⟨200, "200-check.js"⟩) none)).msg =
      (autoSendErrorResponse false (.mk .plain "FeatureError" "Out of stock" (some "s2")
        [("statusCode", .num 400)] (some ⟨200, "200-check.js"⟩) none)).msg ∧
    (autoSendErrorResponse false (.mk .featureE "FeatureError" "Out of stock" (some "s1")
        [("statusCode", .num 400)] (some ⟨200, "200-check.js"⟩) none)).stepDetails =
      (autoSendErrorResponse false (.mk .plain "FeatureError" "Out of stock" (some "s2")
        [("statusCode", .num 400)] (some ⟨200, "200-check.js"⟩) none)).stepDetails :=
  autoErrorHandler_duck_typing_consistent false _ _ 400 rfl (by decide) rfl (by decide)
    (by decide) (by decide) rfl

/-! ## C1: `sendErrorResponse` forwards the original error's properties -/

theorem instOfFeature_not_exec (k : EKind) (h : instOfFeature k = true) :
    instOfFeatureExec k = false := by
  cases k <;> simp_all [instOfFeature, instOfFeatureExec]

theorem getKey_extractKnownProps_other (r : List (String × JsValue)) (e : ErrValue)
    (k : String) (hc : k ≠ "code") (hv : k ≠ "validationErrors")
    (hs : k ≠ "suggestion") (hd : k ≠ "docUrl") :
    getKey (extractKnownProps r e) k = getKey r k := by
  have step1 : ∀ (r' : List (String × JsValue)),
      getKey (match getKey e.props "code" with
              | some (.str c) => setProp r' "code" (.str c)
              | _ => r') k = getKey r' k := by
    intro r'
    cases hx : getKey e.props "code" with
    | none => rfl
    | some v => cases v <;> dsimp only <;> simp [getKey_setProp_ne _ _ _ _ hc]
  have step2 : ∀ (r' : List (String × JsValue)),
      getKey (match getKey e.props "validationErrors" with
              | some (.obj ve) => setProp r' "validationErrors" (.obj ve)
              | _ => r') k = getKey r' k := by
    intro r'
    cases hx : getKey e.props "validationErrors" with
    | none => rfl
    | some v => cases v <;> dsimp only <;> simp [getKey_setProp_ne _ _ _ _ hv]
  have step3 : ∀ (r' : List (String × JsValue)),
      getKey (match getKey e.props "suggestion" with
              | some v => if jsTruthy v then setProp r' "suggestion" v else r'
              | none => r') k = getKey r' k := by
    intro r'
    cases hx : getKey e.props "suggestion" with
    | none => rfl
    | some v =>
        dsimp only
        split_ifs <;> simp [getKey_setProp_ne _ _ _ _ hs]
  have step4 : ∀ (r' : List (String × JsValue)),
      getKey (match getKey e.props "docUrl" with
              | some v => if jsTruthy v then setProp r' "docUrl" v else r'
              | none => r') k = getKey r' k := by
    intro r'
    cases hx : getKey e.props "docUrl" with
    | none => rfl
    | some v =>
        dsimp only
        split_ifs <;> simp [getKey_setProp_ne _ _ _ _ hd]
  calc getKey (extractKnownProps r e) k
      = getKey (match getKey e.props "code" with
                | some (.str c) => setProp r "code" (.str c)
                | _ => r) k := by
        simp only [extractKnownProps]
        rw [step4, step3, step2]
    _ = getKey r k := step1 r

theorem getKey_feature_prefix (err o : ErrValue) (k : String)
    (h1 : k ≠ "message") (h2 : k ≠ "statusCode") (h3 : k ≠ "step")
    (h4 : k ≠ "code") (h5 : k ≠ "validationErrors") (h6 : k ≠ "suggestion")
    (h7 : k ≠ "docUrl") :
    getKey
      (if isHttpError (.errV o) then
        extractKnownProps
          (match err.step with
           | some st => setProp
               [("message", .str (if err.message = "" then "Internal server error" else err.message)),
                ("statusCode", .num (sendStatusCode err))] "step" (stepObj st)
           | none =>
               [("message", .str (if err.message = "" then "Internal server error" else err.message)),
                ("statusCode", .num (sendStatusCode err))]) o
       else
        (match err.step with
         | some st => setProp
             [("message", .str (if err.message = "" then "Internal server error" else err.message)),
              ("statusCode", .num (sendStatusCode err))] "step" (stepObj st)
         | none =>
             [("message", .str (if err.message = "" then "Internal server error" else err.message)),
              ("statusCode", .num (sendStatusCode err))])) k = none := by
  have hbase : ∀ m sc, getKey
      [("message", JsValue.str m), ("statusCode", JsValue.num sc)] k = none := by
    intro m sc
    simp [getKey, Ne.symm h1, Ne.symm h2]
  have hr1 : ∀ m sc, getKey
      (match err.step with
       | some st => setProp [("message", JsValue.str m), ("statusCode", JsValue.num sc)]
           "step" (stepObj st)
       | none => [("message", JsValue.str m), ("statusCode", JsValue.num sc)]) k = none := by
    intro m sc
    cases err.step with
    | none => exact hbase m sc
    | some st => rw [getKey_setProp_ne _ _ _ _ h3]; exact hbase m sc
  split_ifs with hh
  all_goals
    first
      | (rw [getKey_extractKnownProps_other _ _ _ h4 h5 h6 h7]; exact hr1 _ _)
      | exact hr1 _ _

/-- The final stack write of `mkErrResp` does not disturb other keys. -/
theorem getKey_stackWrap_ne (inc : Bool) (stk : Option String)
    (L : List (String × JsValue)) (k : String) (hks : k ≠ "stack") :
    getKey (if inc then
      (match stk with
       | some s => if s = "" then L else setProp L "stack" (.str s)
       | none => L) else L) k = getKey L k := by
  cases inc with
  | false => simp
  | true =>
      cases stk with
      | none => simp
      | some s =>
          simp only [if_true]
          split_ifs with hs
          · rfl
          · rw [getKey_setProp_ne _ _ _ _ hks]

/-- **C1.** For every `FeatureError` whose `originalError` is set,
`sendErrorResponse` writes the JSON `{error: ...}` body in which every
enumerable own property of the original error appears verbatim except
the standard `message`/`stack`/`name`/`statusCode`/`isOperational` set
(in particular a thrown error's `code` and `validationErrors` appear);
the body carries the error's raw stack only when `includeStack` is
enabled, and never carries its `name`. -/
theorem sendErrorResponse_forwards_original_props (err o : ErrValue) (res : ResState)
    (inc : Bool) (hF : instOfFeature err.kind = true)
    (hO : err.originalError = some o) (hnd : (o.props.map Prod.fst).Nodup)
    (hres : res.headersSent = false) :
    (sendErrorResponse err res inc).body =
      some (.obj [("error", .obj (mkErrResp err inc))]) ∧
    (∀ k v, (k, v) ∈ o.props → k ∉ excludedKeys →
      getKey (mkErrResp err inc) k = some v) ∧
    (inc = false → getKey (mkErrResp err inc) "stack" = none) ∧
    (∀ s, err.stack = some s → s ≠ "" → inc = true →
      getKey (mkErrResp err inc) "stack" = some (.str s)) ∧
    getKey (mkErrResp err inc) "name" = none := by
  have hFE := instOfFeature_not_exec err.kind hF
  have hmk : mkErrResp err inc =
      (if inc then
        (match err.stack with
         | some s => if s = "" then
             copyCustomProps
               (if isHttpError (.errV o) then
                 extractKnownProps
                   (match err.step with
                    | some st => setProp
                        [("message", .str (if err.message = "" then "Internal server error" else err.message)),
                         ("statusCode", .num (sendStatusCode err))] "step" (stepObj st)
                    | none =>
                        [("message", .str (if err.message = "" then "Internal server error" else err.message)),
                         ("statusCode", .num (sendStatusCode err))]) o
                else
                 (match err.step with
                  | some st => setProp
                      [("message", .str (if err.message = "" then "Internal server error" else err.message)),
                       ("statusCode", .num (sendStatusCode err))] "step" (stepObj st)
                  | none =>
                      [("message", .str (if err.message = "" then "Internal server error" else err.message)),
                       ("statusCode", .num (sendStatusCode err))])) o.props
             else setProp (copyCustomProps
               (if isHttpError (.errV o) then
                 extractKnownProps
                   (match err.step with
                    | some st => setProp
                        [("message", .str (if err.message = "" then "Internal server error" else err.message)),
                         ("statusCode", .num (sendStatusCode err))] "step" (stepObj st)
                    | none =>
                        [("message", .str (if err.message = "" then "Internal server error" else err.message)),
                         ("statusCode", .num (sendStatusCode err))]) o
                else
                 (match err.step with
                  | some st => setProp
                      [("message", .str (if err.message = "" then "Internal server error" else err.message)),
                       ("statusCode", .num (sendStatusCode err))] "step" (stepObj st)
                  | none =>
                      [("message", .str (if err.message = "" then "Internal server error" else err.message)),
                       ("statusCode", .num (sendStatusCode err))])) o.props) "stack" (.str s)
         | none =>
             copyCustomProps
               (if isHttpError (.errV o) then
                 extractKnownProps
                   (match err.step with
                    | some st => setProp
                        [("message", .str (if err.message = "" then "Internal server error" else err.message)),
                         ("statusCode", .num (sendStatusCode err))] "step" (stepObj st)
                    | none =>
                        [("message", .str (if err.message = "" then "Internal server error" else err.message)),
                         ("statusCode", .num (sendStatusCode err))]) o
                else
                 (match err.step with
                  | some st => setProp
                      [("message", .str (if err.message = "" then "Internal server error" else err.message)),
                       ("statusCode", .num (sendStatusCode err))] "step" (stepObj st)
                  | none =>
                      [("message", .str (if err.message = "" then "Internal server error" else err.message)),
                       ("statusCode", .num (sendStatusCode err))])) o.props)
       else
        copyCustomProps
          (if isHttpError (.errV o) then
            extractKnownProps
              (match err.step with
               | some st => setProp
                   [("message", .str (if err.message = "" then "Internal server error" else err.message)),
                    ("statusCode", .num (sendStatusCode err))] "step" (stepObj st)
               | none =>
                   [("message", .str (if err.message = "" then "Internal server error" else err.message)),
                    ("statusCode", .num (sendStatusCode err))]) o
           else
            (match err.step with
             | some st => setProp
                 [("message", .str (if err.message = "" then "Internal server error" else err.message)),
                  ("statusCode", .num (sendStatusCode err))] "step" (stepObj st)
             | none =>
                 [("message", .str (if err.message = "" then "Internal server error" else err.message)),
                  ("statusCode", .num (sendStatusCode err))])) o.props) := by
    simp only [mkErrResp, hF, hO, hFE, if_true, if_false, Bool.false_eq_true]
  refine ⟨?_, ?_, ?_, ?_, ?_⟩
  · simp [sendErrorResponse, hres]
  · intro k v hmem hex
    have hks : k ≠ "stack" := by
      intro hk; exact hex (hk ▸ (by decide : ("stack" : String) ∈ excludedKeys))
    rw [hmk, getKey_stackWrap_ne _ _ _ _ hks]
    exact getKey_copy_of_mem _ _ _ _ hmem hex hnd
  · intro hincf
    rw [hmk]
    simp only [hincf, Bool.false_eq_true, if_false]
    rw [getKey_copy_of_excluded _ _ _ (by decide)]
    exact getKey_feature_prefix err o "stack" (by decide) (by decide) (by decide)
      (by decide) (by decide) (by decide) (by decide)
  · intro s hstk hsne hinc
    rw [hmk]
    simp only [hinc, if_true, hstk, hsne, if_neg hsne]
    exact getKey_setProp_self _ _ _
  · rw [hmk]
    have hrest : getKey (copyCustomProps
        (if isHttpError (.errV o) then
          extractKnownProps
            (match err.step with
             | some st => setProp
                 [("message", .str (if err.message = "" then "Internal server error" else err.message)),
                  ("statusCode", .num (sendStatusCode err))] "step" (stepObj st)
             | none =>
                 [("message", .str (if err.message = "" then "Internal server error" else err.message)),
                  ("statusCode", .num (sendStatusCode err))]) o
         else
          (match err.step with
           | some st => setProp
               [("message", .str (if err.message = "" then "Internal server error" else err.message)),
                ("statusCode", .num (sendStatusCode err))] "step" (stepObj st)
           | none =>
               [("message", .str (if err.message = "" then "Internal server error" else err.message)),
                ("statusCode", .num (sendStatusCode err))])) o.props) "name" = none := by
      rw [getKey_copy_of_excluded _ _ _ (by decide)]
      exact getKey_feature_prefix err o "name" (by decide) (by decide) (by decide)
        (by decide) (by decide) (by decide) (by decide)
    rw [getKey_stackWrap_ne _ _ _ _ (by decide)]
    exact hrest

/-- Witness for C1: the wrapped `BusinessError`'s `code`,
`validationErrors` and custom `retryable` field all reach the response
verbatim, while `stack` and `name` do not (stack disabled). -/
theorem sendErrorResponse_forwards_original_props_witness :
    getKey (mkErrResp c1FeatErr false) "code" = some (.str "OUT_OF_STOCK") ∧
    getKey (mkErrResp c1FeatErr false) "validationErrors" =
      some (.obj [("email", .obj [])]) ∧
    getKey (mkErrResp c1FeatErr false) "retryable" = some (.bool true) ∧
    getKey (mkErrResp c1FeatErr false) "stack" = none ∧
    getKey (mkErrResp c1FeatErr false) "name" = none := by
  have h := sendErrorResponse_forwards_original_props c1FeatErr c1Orig
    ⟨false, 200, [], none⟩ false (by decide) (by decide) (by decide) rfl
  exact ⟨h.2.1 "code" _ (by decide) (by decide),
    h.2.1 "validationErrors" _ (by decide) (by decide),
    h.2.1 "retryable" _ (by decide) (by decide),
    h.2.2.1 rfl, h.2.2.2.2⟩

/-! ## C5: async task failures are isolated -/

theorem runTasks_executed (debug : Bool) (ts : List AsyncTaskInfo) :
    ∀ c, (runTasks debug ts c).2.2 = ts.map (fun t => t.taskName) := by
  induction ts with
  | nil => intro c; rfl
  | cons t rest ih =>
      intro c
      simp only [runTasks]
      rcases hx : executeTask debug t c with ⟨⟨failure, c'⟩, lg⟩
      simp [ih c', List.map_cons]

theorem runTasks_append (debug : Bool) (pre suf : List AsyncTaskInfo) :
    ∀ c, runTasks debug (pre ++ suf) c =
      ((runTasks debug suf (runTasks debug pre c).1).1,
       (runTasks debug pre c).2.1 ++ (runTasks debug suf (runTasks debug pre c).1).2.1,
       (runTasks debug pre c).2.2 ++ (runTasks debug suf (runTasks debug pre c).1).2.2) := by
  induction pre with
  | nil => intro c; simp [runTasks]
  | cons t rest ih =>
      intro c
      simp only [List.cons_append, runTasks]
      rcases hx : executeTask debug t c with ⟨⟨failure, c'⟩, lg⟩
      simp [ih c']

/-- **C5 (amended).** The Async Task Scheduler never touches the
already-sent response; every task in the list executes exactly once, in
list order, regardless of failures of earlier tasks; and a task's
failure is caught and — when debug logging is enabled — logged. -/
theorem asyncTasks_isolation_amended (debug : Bool) (ts : List AsyncTaskInfo)
    (c : Ctx) (res : ResState) :
    (scheduleAsyncTasks debug ts c res).2.1 = res ∧
    (scheduleAsyncTasks debug ts c res).2.2.2 = ts.map (fun t => t.taskName) ∧
    (∀ (pre post : List AsyncTaskInfo) (t : AsyncTaskInfo) (m : String),
      ts = pre ++ t :: post →
      (t.fn (runTasks debug pre c).1).1 = some m → debug = true →
      SchedLog.taskFailed t.taskName t.path m ∈ (scheduleAsyncTasks debug ts c res).2.2.1) := by
  refine ⟨?_, ?_, ?_⟩
  · by_cases h : ts.isEmpty <;> simp [scheduleAsyncTasks, executeInBackground, h]
  · by_cases h : ts.isEmpty
    · have : ts = [] := List.isEmpty_iff.mp h
      subst this
      simp [scheduleAsyncTasks]
    · simp [scheduleAsyncTasks, executeInBackground, h, runTasks_executed]
  · intro pre post t m hts hfail hdebug
    subst hdebug
    have hne : ts.isEmpty = false := by
      subst hts
      cases pre <;> simp
    simp only [scheduleAsyncTasks, executeInBackground, hne, Bool.false_eq_true, if_false]
    subst hts
    rw [runTasks_append]
    simp only [runTasks, logIf]
    rcases hx : executeTask true t (runTasks true pre c).1 with ⟨⟨failure, c'⟩, lg⟩
    have hfl : failure = some m := by
      have : (executeTask true t (runTasks true pre c).1).1.1 = some m := by
        simp only [executeTask, logIf]
        rcases hy : t.fn (runTasks true pre c).1 with ⟨fl, c2⟩
        rw [hy] at hfail
        cases fl with
        | none => simp at hfail
        | some mm =>
            simp only at hfail
            simpa using hfail
      rw [hx] at this
      exact this
    subst hfl
    simp

/-- Witness for C5 (amended): a failing first task at debug mode on —
its failure is logged, the second task still runs, and the response
stays untouched. -/
theorem asyncTasks_isolation_amended_witness :
    (scheduleAsyncTasks true [c5FailTask, c5OkTask] c5Ctx c5Res).2.1 = c5Res ∧
    (scheduleAsyncTasks true [c5FailTask, c5OkTask] c5Ctx c5Res).2.2.2 = ["t1", "t2"] ∧
    SchedLog.taskFailed "t1" "/tasks/t1.js" "boom" ∈
      (scheduleAsyncTasks true [c5FailTask, c5OkTask] c5Ctx c5Res).2.2.1 := by
  have h := asyncTasks_isolation_amended true [c5FailTask, c5OkTask] c5Ctx c5Res
  exact ⟨h.1, h.2.1, h.2.2 [] [c5OkTask] c5FailTask "boom" rfl rfl rfl⟩

/-- **C5 counterexample.** In the default (non-debug) configuration the
scheduler emits no log at all for the failing task — the failure is
caught and the second task runs, but nothing is logged, refuting the
claim's unconditional "the failure is caught and logged". -/
theorem asyncTasks_failure_not_logged_counterexample :
    scheduleAsyncTasks false [c5FailTask, c5OkTask] c5Ctx c5Res =
      (c5Ctx, c5Res, [], ["t1", "t2"]) := by decide

/-! ## C2: route priority ranking -/

theorem hasParam_pos (r : Route) (h : hasParam r = true) : 0 < paramCount r := by
  unfold hasParam at h
  rcases List.any_eq_true.mp h with ⟨s, hs, hp⟩
  unfold paramCount
  exact List.length_pos.mpr (fun he => by simp [List.filter_eq_nil.mp he s hs] at hp)

theorem allLiteral_paramCount_zero (r : Route) (h : allLiteral r = true) :
    paramCount r = 0 := by
  unfold allLiteral at h
  unfold paramCount
  rw [List.length_eq_zero, List.filter_eq_nil]
  intro s hs
  have := List.all_eq_true.mp h s hs
  simpa using this

theorem priorityLE_not_param_before_literal (a b : Route) (hle : priorityLE a b)
    (hp : hasParam a = true) (hl : allLiteral b = true)
    (hlit : litCount a ≤ litCount b) : False := by
  unfold priorityLE priorityKey at hle
  rcases (Prod.Lex.le_iff _ _).mp hle with hlt | ⟨heq, hle2⟩
  · have : (litCount b : Int) < litCount a := by
      simpa using hlt
    omega
  · have hbz := allLiteral_paramCount_zero b hl
    have haz := hasParam_pos a hp
    have : paramCount a ≤ paramCount b := hle2
    omega

/-- **C2 (amended).** The scanner's priority sort returns a permutation
of the routes ordered by the priority tuple (more literal segments
first, then fewer parameter segments, with remaining ties kept in
declaration order), so among routes sharing a path prefix every
all-literal route precedes every parameterized route that does not have
strictly more literal segments. -/
theorem routePriority_order_amended (rs : List Route) :
    (sortFeaturesByPriority rs).Perm rs ∧
    List.Sorted priorityLE (sortFeaturesByPriority rs) ∧
    List.Pairwise (fun a b => hasParam a = true → allLiteral b = true →
      litCount a ≤ litCount b → False) (sortFeaturesByPriority rs) ∧
    (∀ c : List Route, c.Pairwise (fun a b => priorityKey a = priorityKey b) →
      c.Sublist rs → c.Sublist (sortFeaturesByPriority rs)) := by
  refine ⟨List.perm_insertionSort priorityLE rs,
    List.sorted_insertionSort priorityLE rs, ?_, ?_⟩
  · exact (List.sorted_insertionSort priorityLE rs).imp
      (fun h hp hl hlit => priorityLE_not_param_before_literal _ _ h hp hl hlit)
  · intro c hpw hc
    exact List.sublist_insertionSort (hpw.imp (fun h => le_of_eq h)) hc

/-- Witness for C2 (amended): the spec's `/blog` example — the two
literal routes keep their declaration order and the parameterized route
is sorted last. -/
theorem routePriority_order_amended_witness :
    List.Sorted priorityLE (sortFeaturesByPriority
      [⟨[.lit "blog", .param "slug"]⟩, ⟨[.lit "blog", .lit "search"]⟩,
       ⟨[.lit "blog", .lit "about"]⟩]) ∧
    List.Sublist [⟨[.lit "blog", .lit "search"]⟩, ⟨[.lit "blog", .lit "about"]⟩]
      (sortFeaturesByPriority
        [⟨[.lit "blog", .param "slug"]⟩, ⟨[.lit "blog", .lit "search"]⟩,
         ⟨[.lit "blog", .lit "about"]⟩]) := by
  have h := routePriority_order_amended
    [⟨[.lit "blog", .param "slug"]⟩, ⟨[.lit "blog", .lit "search"]⟩,
     ⟨[.lit "blog", .lit "about"]⟩]
  exact ⟨h.2.1, h.2.2.2 _ (by decide) (by decide)⟩

/-- **C2 counterexample.** Two routes sharing the `/blog` prefix where
the parameterized route `/blog/a/b/:id` has more literal segments than
the all-literal route `/blog/x`: the sort places the parameterized route
first, refuting "every all-literal route precedes every route with a
parameter segment". -/
theorem routePriority_counterexample :
    sortFeaturesByPriority [c2LitRoute, c2ParamRoute] = [c2ParamRoute, c2LitRoute] ∧
    allLiteral c2LitRoute = true ∧ hasParam c2ParamRoute = true ∧
    c2LitRoute.segs.head? = some (.lit "blog") ∧
    c2ParamRoute.segs.head? = some (.lit "blog") := by decide

/-! ## C8: convention resolution -/

theorem isPrefixOf_append_self (root rest : List String) :
    root.isPrefixOf (root ++ rest) = true := by
  induction root with
  | nil => simp [List.isPrefixOf]
  | cons a t ih => simpa [List.isPrefixOf] using ih

theorem splitBoundary_append (mids : List String) (b : String)
    (hb : (methodOf b).isSome) : splitBoundary (mids ++ [b]) = some (mids, b) := by
  induction mids with
  | nil => simp [splitBoundary, hb]
  | cons s t ih => simp [splitBoundary, ih]

theorem convSeg_param (cs : List Char) : convSeg ⟨'[' :: (cs ++ [']'])⟩ = ⟨':' :: cs⟩ := by
  simp [convSeg, List.getLast?_concat, List.dropLast_concat]

theorem convSeg_literal (c : Char) (cs : List Char) (h : c ≠ '[') :
    convSeg ⟨c :: cs⟩ = ⟨c :: cs⟩ := by
  unfold convSeg
  split
  · next rest heq =>
      exfalso
      apply h
      have : c :: cs = '[' :: rest := heq
      injection this with h1 _
  · rfl

/-- **C8.** Resolving a method-boundary directory under the features
root yields the `@verb`'s method and the path built from the directory
segments strictly between root and boundary, `[name]` segments becoming
`:name` parameters and all other segments staying literal, joined in
directory order with a leading slash; in particular
`.../features/users/[id]/@get` resolves to GET `/users/:id`. -/
theorem conventionResolution_method_path (root mids : List String) (b M : String)
    (hb : methodOf b = some M) :
    resolveDir (root ++ (mids ++ [b])) root = some (M, renderPath mids) ∧
    resolveDir ["home", "proj", "features", "users", "[id]", "@get"]
      ["home", "proj", "features"] = some ("GET", "/users/:id") ∧
    convSeg "[id]" = ":id" ∧
    convSeg "users" = "users" := by
  refine ⟨?_, by decide, by decide, by decide⟩
  unfold resolveDir
  rw [isPrefixOf_append_self root (mids ++ [b])]
  simp only [if_true]
  rw [List.drop_left, splitBoundary_append mids b (by simp [hb])]
  dsimp only
  rw [hb]

/-- Witness for C8: the claim's own example, through the general
theorem. -/
theorem conventionResolution_method_path_witness :
    resolveDir (["home", "proj", "features"] ++ (["users", "[id]"] ++ ["@get"]))
      ["home", "proj", "features"] = some ("GET", renderPath ["users", "[id]"]) ∧
    renderPath ["users", "[id]"] = "/users/:id" := by
  have h := conventionResolution_method_path ["home", "proj", "features"]
    ["users", "[id]"] "@get" "GET" (by decide)
  exact ⟨h.1, by decide⟩

/-! ## C4: what the error hook is invoked with -/

/-- **C4 (amended).** Whenever a step throws and the route defines an
error hook, the hook is invoked with the `FeatureError` wrapper — whose
`originalError` field references the original thrown error — together
with the Context, the request, and the response. -/
theorem errorHook_receives_wrapper (fuel : Nat) (steps : List StepDef) (h : HookFn)
    (q : Req) (c : Ctx) (r : ResState) (e : ErrValue) (st : StepInfo) (c' : Ctx)
    (r' : ResState) (called : List String)
    (hrs : runSteps steps c q r = (.failed e st c' r', called)) :
    (∀ out tr, runFeature (fuel + 1) steps (some h) q c r = some (out, tr) →
      tr.hookCalls.head? = some ⟨mkFeatureError e st, c', q, r'⟩) ∧
    (mkFeatureError e st).originalError = some e := by
  refine ⟨?_, rfl⟩
  intro out tr hrun
  simp only [runFeature, hrs] at hrun
  rcases hh : h (mkFeatureError e st) c' q r' with ⟨hres, c2, r2⟩
  rw [hh] at hrun
  cases hres with
  | retryD d m =>
      dsimp only at hrun
      by_cases hlt : c2.retryCount + 1 < m
      · rw [if_pos hlt] at hrun
        cases hrec : runFeature fuel steps (some h) q { c2 with retryCount := c2.retryCount + 1 } r2 with
        | none => rw [hrec] at hrun; exact absurd hrun (by simp)
        | some p =>
            rw [hrec] at hrun
            obtain ⟨out', tr'⟩ := p
            simp only [Option.some.injEq, Prod.mk.injEq] at hrun
            rw [← hrun.2]
            rfl
      · rw [if_neg hlt] at hrun
        simp only [Option.some.injEq, Prod.mk.injEq] at hrun
        rw [← hrun.2]
        rfl
  | threw e2 =>
      dsimp only at hrun
      simp only [Option.some.injEq, Prod.mk.injEq] at hrun
      rw [← hrun.2]
      rfl
  | nothingR =>
      dsimp only at hrun
      by_cases hsent : r2.headersSent = true
      · rw [if_pos hsent] at hrun
        simp only [Option.some.injEq, Prod.mk.injEq] at hrun
        rw [← hrun.2]
        rfl
      · rw [if_neg hsent] at hrun
        simp only [Option.some.injEq, Prod.mk.injEq] at hrun
        rw [← hrun.2]
        rfl

/-- Witness for C4 (amended): at a concrete failing step the hook's
recorded argument is exactly the wrapper around the thrown error,
with the context, request and response alongside. -/
theorem errorHook_receives_wrapper_witness :
    (runFeature 1 [c4Step] (some c4Hook) c4Req c4Ctx c4Res).map
      (fun p => p.2.hookCalls.head?) =
      some (some ⟨mkFeatureError c4Err ⟨100, "100-fail.js"⟩, c4Ctx, c4Req, c4Res⟩) ∧
    (mkFeatureError c4Err ⟨100, "100-fail.js"⟩).originalError = some c4Err := by
  have h := errorHook_receives_wrapper 0 [c4Step] c4Hook c4Req c4Ctx c4Res c4Err
    ⟨100, "100-fail.js"⟩ c4Ctx c4Res ["100-fail.js"] rfl
  refine ⟨?_, h.2⟩
  rcases hx : runFeature 1 [c4Step] (some c4Hook) c4Req c4Ctx c4Res with _ | ⟨out, tr⟩
  · exact absurd hx (by decide)
  · rw [Option.map_some']
    rw [h.1 out tr hx]

/-- **C4 counterexample.** At a concrete failing step the hook receives
the wrapper, which is not the original thrown error itself (only its
`originalError` field is), refuting "the hook is invoked with the
original thrown error itself". -/
theorem errorHook_wrapper_counterexample :
    ((runFeature 1 [c4Step] (some c4Hook) c4Req c4Ctx c4Res).map
      (fun p => p.2.hookCalls.map HookCall.err)) =
      some [mkFeatureError c4Err ⟨100, "100-fail.js"⟩] ∧
    mkFeatureError c4Err ⟨100, "100-fail.js"⟩ ≠ c4Err := by decide

/-! ## C3: the retry bound -/

theorem runSteps_count (nm : String) (steps : List StepDef) :
    ∀ c q r, ((runSteps steps c q r).2).count nm ≤
      (steps.map (fun s => s.info.stepName)).count nm := by
  induction steps with
  | nil => intro c q r; simp [runSteps]
  | cons s rest ih =>
      intro c q r
      simp only [runSteps, List.map_cons]
      cases hfn : s.fn c q r with
      | ret c' r' =>
          by_cases hs : r'.headersSent = true
          · simp only [hs, if_true]
            by_cases he : s.info.stepName = nm <;>
              simp [List.count_cons, he]
          · simp only [hs, Bool.false_eq_true, if_false]
            rcases hrec : runSteps rest c' q r' with ⟨out2, called2⟩
            have hcc := ih c' q r'
            rw [hrec] at hcc
            dsimp only at hcc
            by_cases he : s.info.stepName = nm <;>
              simp [List.count_cons, he] <;> omega
      | threw e c' =>
          by_cases he : s.info.stepName = nm <;>
            simp [List.count_cons, he]

theorem runSteps_counter (steps : List StepDef) :
    ∀ c q r, stepsPreserveCounter steps →
      (((runSteps steps c q r).1).ctx).retryCount = c.retryCount := by
  induction steps with
  | nil => intro c q r _; rfl
  | cons s rest ih =>
      intro c q r hpres
      have hs := hpres s (List.mem_cons_self s rest) c q r
      simp only [runSteps]
      cases hfn : s.fn c q r with
      | ret c' r' =>
          rw [hfn] at hs
          by_cases hsent : r'.headersSent = true
          · simp only [hsent, if_true]
            exact hs
          · simp only [hsent, Bool.false_eq_true, if_false]
            rcases hrec : runSteps rest c' q r' with ⟨out2, called2⟩
            have h2 := ih c' q r' (fun t ht => hpres t (List.mem_cons_of_mem s ht))
            rw [hrec] at h2
            simpa [h2] using hs
      | threw e c' =>
          rw [hfn] at hs
          exact hs

theorem runFeature_retry_inv (steps : List StepDef) (h : HookFn) (q : Req) (N : Nat)
    (nm : String) (hsteps : stepsPreserveCounter steps)
    (hhook : hookPreservesCounter h) (hretry : alwaysRetryWith h N)
    (hcount : (steps.map (fun s => s.info.stepName)).count nm ≤ 1) :
    ∀ (fuel : Nat) (c : Ctx) (r : ResState), N ≤ c.retryCount + fuel →
      c.retryCount < N →
      ∃ out tr, runFeature fuel steps (some h) q c r = some (out, tr) ∧
        tr.stepCalls.count nm ≤ fuel ∧
        (∀ e2 ce re, out = .escalated e2 ce re →
          ∃ hc, tr.hookCalls.getLast? = some hc ∧ hc.err = e2) := by
  intro fuel
  induction fuel with
  | zero => intro c r hge hlt; omega
  | succ fuel ih =>
      intro c r hge hlt
      rcases hrs : runSteps steps c q r with ⟨out1, called⟩
      have hcalled : called.count nm ≤ 1 := by
        have h0 := runSteps_count nm steps c q r
        rw [hrs] at h0
        dsimp only at h0
        omega
      cases out1 with
      | completed c1 r1 =>
          refine ⟨.done c1 r1, ⟨called, []⟩, ?_, by dsimp only; omega, ?_⟩
          · simp only [runFeature, hrs]
          · intro e2 ce re heq; cases heq
      | early c1 r1 =>
          refine ⟨.done c1 r1, ⟨called, []⟩, ?_, by dsimp only; omega, ?_⟩
          · simp only [runFeature, hrs]
          · intro e2 ce re heq; cases heq
      | failed e st c' r' =>
          have hc' : c'.retryCount = c.retryCount := by
            have := runSteps_counter steps c q r hsteps
            rw [hrs] at this
            exact this
          obtain ⟨d, hd⟩ := hretry (mkFeatureError e st) c' q r'
          rcases hh : h (mkFeatureError e st) c' q r' with ⟨hres, c2, r2⟩
          rw [hh] at hd
          dsimp only at hd
          subst hd
          have hc2 : c2.retryCount = c.retryCount := by
            have := hhook (mkFeatureError e st) c' q r'
            rw [hh] at this
            dsimp only at this
            omega
          by_cases hltN : c2.retryCount + 1 < N
          · obtain ⟨out', tr', hrec, hcnt, hesc⟩ :=
              ih { c2 with retryCount := c2.retryCount + 1 } r2 (by dsimp only; omega)
                (by simpa using hltN)
            refine ⟨out', ⟨called ++ tr'.stepCalls, ⟨mkFeatureError e st, c', q, r'⟩ :: tr'.hookCalls⟩,
              ?_, ?_, ?_⟩
            · simp only [runFeature, hrs, hh]
              dsimp only
              rw [if_pos (by simpa using hltN), hrec]
            · dsimp only
              rw [List.count_append]
              omega
            · intro e2 ce re heq
              obtain ⟨hc, hlast, herr⟩ := hesc e2 ce re heq
              refine ⟨hc, ?_, herr⟩
              rcases hcs : tr'.hookCalls with _ | ⟨x, xs⟩
              · rw [hcs] at hlast; cases hlast
              · rw [hcs] at hlast
                rw [List.getLast?_cons_cons]
                exact hlast
          · refine ⟨.escalated (mkFeatureError e st)
              { c2 with retryCount := c2.retryCount + 1 } r2,
              ⟨called, [⟨mkFeatureError e st, c', q, r'⟩]⟩, ?_, by dsimp only; omega, ?_⟩
            · simp only [runFeature, hrs, hh]
              dsimp only
              rw [if_neg (by simpa using hltN)]
            · intro e2 ce re heq
              injection heq with h1 h2 h3
              exact ⟨⟨mkFeatureError e st, c', q, r'⟩, rfl, h1⟩

/-- **C3.** For a route whose error hook always answers a Retry
Directive with maximum-attempts bound `N ≥ 1` (and neither steps nor
hook touch the engine's attempt counter), the pipeline terminates within
`N` passes: any step occurring once in the step list is invoked at most
`N` times, and when the bound is exhausted the pipeline escalates
carrying the most recent error (the error of the last hook
invocation). -/
theorem retryBound_caps_invocations (steps : List StepDef) (h : HookFn) (q : Req)
    (c : Ctx) (r : ResState) (N : Nat) (nm : String)
    (hsteps : stepsPreserveCounter steps) (hhook : hookPreservesCounter h)
    (hretry : alwaysRetryWith h N) (hN : 1 ≤ N) (hc0 : c.retryCount = 0)
    (hcount : (steps.map (fun s => s.info.stepName)).count nm ≤ 1) :
    ∃ out tr, runFeature N steps (some h) q c r = some (out, tr) ∧
      tr.stepCalls.count nm ≤ N ∧
      (∀ e2 ce re, out = .escalated e2 ce re →
        ∃ hc, tr.hookCalls.getLast? = some hc ∧ hc.err = e2) :=
  runFeature_retry_inv steps h q N nm hsteps hhook hretry hcount N c r
    (by omega) (by omega)

/-- Witness for C3: a single always-failing step with the
`maxAttempts: 3` hook — the pipeline yields a result within 3 passes and
the failing step is invoked at most 3 times. -/
theorem retryBound_caps_invocations_witness :
    ∃ out tr, runFeature 3 [c4Step] (some c3Hook) c4Req c4Ctx c4Res = some (out, tr) ∧
      tr.stepCalls.count "100-fail.js" ≤ 3 ∧
      (∀ e2 ce re, out = FinalOut.escalated e2 ce re →
        ∃ hc, tr.hookCalls.getLast? = some hc ∧ hc.err = e2) := by
  refine retryBound_caps_invocations [c4Step] c3Hook c4Req c4Ctx c4Res 3 "100-fail.js"
    ?_ ?_ ?_ (by omega) rfl (by decide)
  · intro s hs cc qq rr
    have : s = c4Step := by simpa using hs
    subst this
    rfl
  · intro e cc qq rr; rfl
  · intro e cc qq rr; exact ⟨10, rfl⟩

end Numflow
